import Mathlib

/-!
Verification development for the eyre-span crate (src/lib.rs).

The crate attaches the `tracing::Span` that is ambient at error-creation
time to every `eyre::Report`, renders a span trace in the alternate
`Display` form, scrubs ANSI escapes from rendered span fields, and offers
an `emit` helper that logs an error inside its captured span.

Shallow embedding conventions:
arbitrary text is Lean `String` (char lists via `String.data` where
induction is needed); the ambient thread-local span of `tracing` is passed
as an explicit argument to any operation that could observe it; a Rust
panic is an `Except.error` carrying the panic message; the `tracing` log
stream is a `LogState` value threaded explicitly.
-/

/-- The ANSI escape-introducer character 0x1B. -/
def escChar : Char := '\x1B'

/-- Body of the closure passed to `String::retain` in `strip_ansi`
(src/lib.rs lines 51-59), turned into a recursion over the remaining
characters with the captured mutable flag `keep` as explicit state.
The match arms are in source order: `'\x1B'` sets `keep` to false and
drops; `'m'` while not keeping sets `keep` to true and drops; any other
character is retained exactly when `keep` holds. -/
def stripAnsiAux (keep : Bool) : List Char → List Char
  | [] => []
  | c :: cs =>
    if c = escChar then stripAnsiAux false cs
    else if c = 'm' ∧ keep = false then stripAnsiAux true cs
    else if keep then c :: stripAnsiAux keep cs
    else stripAnsiAux keep cs

/-- The value of the `keep` flag of `strip_ansi` after scanning a list of
characters, starting from a given value. Used to reason about
`stripAnsiAux` on concatenations. -/
def keepState (keep : Bool) : List Char → Bool
  | [] => keep
  | c :: cs =>
    if c = escChar then keepState false cs
    else if c = 'm' ∧ keep = false then keepState true cs
    else keepState keep cs

/-- Embedding of `strip_ansi` (src/lib.rs lines 51-59): scan with `keep`
initially true, retaining characters per `stripAnsiAux`. -/
def strip_ansi (s : String) : String := String.mk (stripAnsiAux true s.data)

/-- Metadata of one span in a span trace: `meta.target()`, `meta.name()`,
and the rendered field text handed to the `with_spans` callback. -/
structure FrameMeta where
  target : String
  name : String
  fields : String
  deriving DecidableEq

/-- Embedding of `tracing::Span`: the chain of span metadata from the
span itself outward to the root, innermost first. The empty chain is the
disabled/none span (no active scope). `SpanTrace::new(span).with_spans`
visits exactly this chain in this order. -/
structure Span where
  chain : List FrameMeta
  deriving DecidableEq

/-- Embedding of the crate's `Handler` struct (src/lib.rs lines 19-22):
it stores exactly one field, the captured span. -/
structure Handler where
  span : Span
  deriving DecidableEq

/-- Text written for one span by the `with_spans` callback inside
`Handler::display` (src/lib.rs lines 38-43): always a newline, a bullet,
the target, a double colon and the name; when the field text is
non-empty, additionally the scrubbed field text between a pair of curly
braces (written \x7b and \x7d below). -/
def frameLine (m : FrameMeta) : String :=
  "\n• " ++ m.target ++ "::" ++ m.name ++
    (if m.fields = "" then "" else "\x7b" ++ strip_ansi m.fields ++ "\x7d")

/-- Embedding of `SpanTrace::with_spans` iteration as used in
`Handler::display`: the callback appends `frameLine` for each frame of
the chain, innermost first, into the accumulator string `acc`, and always
returns `true` (never stops early). -/
def withSpans (acc : String) : List FrameMeta → String
  | [] => acc
  | m :: rest => withSpans (acc ++ frameLine m) rest

/-- Embedding of `Handler::display` (src/lib.rs lines 29-48, with the
default `tracing-error` feature on): first the error's plain display text
`plain`, then, when the formatter is in alternate mode, the span trace of
the captured span built by `withSpans` starting from the empty string.
The source never consults `Span::current()` here; it only clones the
stored `self.span`. -/
def Handler.display (h : Handler) (plain : String) (alternate : Bool) : String :=
  plain ++ (if alternate then withSpans "" h.span.chain else "")

/-- Embedding of `Handler::debug` (src/lib.rs lines 25-27): it delegates
directly to the error's own `Debug` text, using nothing of the handler. -/
def Handler.debug (_h : Handler) (errDebug : String) : String := errDebug

/-- The type-erased `Box<dyn EyreHandler>` stored inside an
`eyre::Report`: either this crate's `Handler`, or a handler of some other
type (for example eyre's default handler, when `install` was never
called or the report predates it). -/
inductive AnyHandler where
  | spanHandler (h : Handler)
  | foreign (tag : String)
  deriving DecidableEq

/-- Embedding of `report.handler().downcast_ref::<Handler>()`: succeeds
exactly when the attached handler is this crate's `Handler`. -/
def AnyHandler.downcastHandler : AnyHandler → Option Handler
  | AnyHandler.spanHandler h => some h
  | AnyHandler.foreign _ => none

/-- Embedding of `eyre::Report`: the wrapped error's plain `Display`
text, its `Debug` text, and the attached type-erased handler. eyre
delegates the report's own `Display`/`Debug` to that handler. -/
structure Report where
  msg : String
  dbgMsg : String
  handler : AnyHandler
  deriving DecidableEq

/-- Embedding of `ReportSpan::span` (src/lib.rs lines 76-83):
`self.handler().downcast_ref::<Handler>().expect("eyre-span handler").span`.
The `expect` panic is modelled as `Except.error` with the panic message. -/
def Report.spanResult (r : Report) : Except String Span :=
  match AnyHandler.downcastHandler r.handler with
  | some h => Except.ok h.span
  | none => Except.error "eyre-span handler"

/-- The hook closure registered by `install` (src/lib.rs lines 111-113):
`|_| Box::new(Handler { span: tracing::Span::current() })`. Its argument
(the error being wrapped) is ignored; `Span::current()` is the ambient
span at the moment the report is created, passed here explicitly. -/
def hookFn (ambient : Span) (_errorRef : String) : Handler := Handler.mk ambient

/-- A report created (after `install`) while `ambient` is the current
span: eyre calls the registered hook with the error and attaches the
resulting handler to the new report. -/
def mkReport (ambient : Span) (msg dbgMsg : String) : Report :=
  Report.mk msg dbgMsg (AnyHandler.spanHandler (hookFn ambient msg))

/-- `ReportSpan::span` invoked later, while `_ambientNow` is the current
span. The source body reads only the stored handler, never
`Span::current()`, so the ambient argument is unused. -/
def Report.spanObserved (r : Report) (_ambientNow : Span) : Except String Span :=
  Report.spanResult r

/-- The report's `Display` rendering invoked later, while `_ambientNow`
is current. eyre delegates to the attached handler's `display`; the
foreign-handler rendering is outside this crate, hence `none` there.
The source path reads only the stored span, never `Span::current()`. -/
def Report.displayObserved (r : Report) (_ambientNow : Span) (alternate : Bool) :
    Option String :=
  Option.map (fun h => Handler.display h r.msg alternate)
    (AnyHandler.downcastHandler r.handler)

/-- The report's `Debug` rendering invoked later, while `_ambientNow` is
current: the handler's `debug` delegates to the error's own debug text. -/
def Report.debugObserved (r : Report) (_ambientNow : Span) : Option String :=
  Option.map (fun h => Handler.debug h r.dbgMsg)
    (AnyHandler.downcastHandler r.handler)

/-- Severity of a log event; only `tracing::error!` occurs in this crate. -/
inductive LogLevel where
  | error
  deriving DecidableEq

/-- One emitted log event: its level, its message, and the span that was
ambient when it was emitted (the span the subscriber attributes it to). -/
structure LogEvent where
  level : LogLevel
  message : String
  context : Span
  deriving DecidableEq

/-- The state of the tracing facility: the current ambient span and the
stream of events emitted so far. -/
structure LogState where
  ambient : Span
  events : List LogEvent
  deriving DecidableEq

/-- Embedding of `tracing::error!("{e}")`: append one error-level event
whose message is the given text, attributed to the current ambient span. -/
def traceErrorEvent (msg : String) (st : LogState) : LogState :=
  LogState.mk st.ambient (st.events ++ [LogEvent.mk LogLevel.error msg st.ambient])

/-- Embedding of `Span::in_scope`: enter the span (it becomes ambient),
run the closure, then restore the previous ambient span on exit. -/
def Span.inScope (sp : Span) (f : LogState → LogState) (st : LogState) : LogState :=
  LogState.mk st.ambient (f (LogState.mk sp st.events)).events

/-- Embedding of the free function `emit` (src/lib.rs lines 100-108).
On `Ok v` it returns `Some v` untouched. On `Err e` it evaluates
`e.span()` (whose `expect` panic propagates as `Except.error`), enters
that span, emits `tracing::error!("{e}")` — the message is the report's
non-alternate display text, which eyre obtains from the handler — and
returns `None`. -/
def emit {α : Type} (e : Except Report α) (st : LogState) :
    Except String (Option α × LogState) :=
  match e with
  | Except.ok v => Except.ok (some v, st)
  | Except.error r =>
    match AnyHandler.downcastHandler r.handler with
    | none => Except.error "eyre-span handler"
    | some h =>
      Except.ok (none,
        Span.inScope h.span (traceErrorEvent (Handler.display h r.msg false)) st)

/-- Embedding of the method `Emit::emit` (src/lib.rs lines 91-95): its
body is exactly a call to the free function `emit`. -/
def emitMethod {α : Type} (e : Except Report α) (st : LogState) :
    Except String (Option α × LogState) :=
  emit e st

/-- Spec-side rendering of a span trace, following the claim's wording:
one `frameLine` per frame, concatenated innermost first. Compared with
the source-side accumulator recursion `withSpans`. -/
def traceSpec : List FrameMeta → String
  | [] => ""
  | m :: rest => frameLine m ++ traceSpec rest

/-- Spec-side constructor of a text whose every escape introducer is
terminated: pieces of clean text alternate with escapes
`ESC ++ body ++ 'm'`, followed by a clean tail. -/
def mkBalanced : List (List Char × List Char) → List Char → List Char
  | [], tail => tail
  | (t, b) :: rest, tail => t ++ (escChar :: (b ++ ['m'])) ++ mkBalanced rest tail

/-- Scanning a concatenation: the characters kept from `xs ++ ys` are the
characters kept from `xs` followed by those kept from `ys`, the latter
scanned from the `keep` state that `xs` leaves behind. -/
theorem stripAnsiAux_append (k : Bool) (xs ys : List Char) :
    stripAnsiAux k (xs ++ ys) = stripAnsiAux k xs ++ stripAnsiAux (keepState k xs) ys := by
  induction xs generalizing k with
  | nil => simp [stripAnsiAux, keepState]
  | cons c cs ih =>
    simp only [List.cons_append, stripAnsiAux, keepState]
    split_ifs with h1 h2 h3
    · exact ih false
    · exact ih true
    · simp [ih k]
    · exact ih k

/-- Escape-free text leaves the `keep` flag true. -/
theorem keepState_true_of_noesc (t : List Char) (h : escChar ∉ t) :
    keepState true t = true := by
  induction t with
  | nil => rfl
  | cons c cs ih =>
    have hc : ¬ c = escChar := fun hc => h (by simp [hc])
    have hcs : escChar ∉ cs := fun hm => h (List.mem_cons_of_mem _ hm)
    simp [keepState, hc, ih hcs]

/-- Escape-free text is kept verbatim by the scan in the keeping state. -/
theorem stripAnsiAux_true_of_noesc (t : List Char) (h : escChar ∉ t) :
    stripAnsiAux true t = t := by
  induction t with
  | nil => rfl
  | cons c cs ih =>
    have hc : ¬ c = escChar := fun hc => h (by simp [hc])
    have hcs : escChar ∉ cs := fun hm => h (List.mem_cons_of_mem _ hm)
    simp [stripAnsiAux, hc, ih hcs]

/-- Text without an 'm' leaves the `keep` flag false once it is false. -/
theorem keepState_false_of_nom (b : List Char) (h : 'm' ∉ b) :
    keepState false b = false := by
  induction b with
  | nil => rfl
  | cons c cs ih =>
    have hm : ¬ c = 'm' := fun hm => h (by simp [hm])
    have hcs : 'm' ∉ cs := fun x => h (List.mem_cons_of_mem _ x)
    by_cases hc : c = escChar
    · simp [keepState, hc, ih hcs]
    · simp [keepState, hc, hm, ih hcs]

/-- Text without an 'm' is dropped entirely by the scan in the dropping
state. -/
theorem stripAnsiAux_false_of_nom (b : List Char) (h : 'm' ∉ b) :
    stripAnsiAux false b = [] := by
  induction b with
  | nil => rfl
  | cons c cs ih =>
    have hm : ¬ c = 'm' := fun hm => h (by simp [hm])
    have hcs : 'm' ∉ cs := fun x => h (List.mem_cons_of_mem _ x)
    by_cases hc : c = escChar
    · simp [stripAnsiAux, hc, ih hcs]
    · simp [stripAnsiAux, hc, hm, ih hcs]

/-- The scan only ever drops characters: its output is a sublist of its
input, whatever the starting state. -/
theorem stripAnsiAux_sublist (k : Bool) (s : List Char) :
    List.Sublist (stripAnsiAux k s) s := by
  induction s generalizing k with
  | nil => simp [stripAnsiAux]
  | cons c cs ih =>
    simp only [stripAnsiAux]
    split_ifs with h1 h2 h3
    · exact List.Sublist.trans (ih false) (List.sublist_cons_self c cs)
    · exact List.Sublist.trans (ih true) (List.sublist_cons_self c cs)
    · exact List.Sublist.cons₂ c (ih k)
    · exact List.Sublist.trans (ih k) (List.sublist_cons_self c cs)

/-- The escape introducer never survives the scan: every branch of the
closure drops it. -/
theorem escChar_notin_stripAnsiAux (k : Bool) (s : List Char) :
    escChar ∉ stripAnsiAux k s := by
  induction s generalizing k with
  | nil => simp [stripAnsiAux]
  | cons c cs ih =>
    simp only [stripAnsiAux]
    split_ifs with h1 h2 h3
    · exact ih false
    · exact ih true
    · intro hmem
      rcases List.mem_cons.mp hmem with heq | hmem2
      · exact h1 heq.symm
      · exact ih k hmem2
    · exact ih k

/-- The accumulator recursion of `with_spans` equals the direct
concatenation of the per-frame lines. -/
theorem withSpans_eq_traceSpec (chain : List FrameMeta) (acc : String) :
    withSpans acc chain = acc ++ traceSpec chain := by
  induction chain generalizing acc with
  | nil => simp [withSpans, traceSpec, String.append_empty]
  | cons m rest ih =>
    simp only [withSpans, traceSpec]
    rw [ih, String.append_assoc]

/-- Scrubbing a balanced interleaving of clean text and escapes keeps
exactly the clean text, in order. -/
theorem stripAnsiAux_mkBalanced (ps : List (List Char × List Char)) (tail : List Char)
    (hp : ∀ p ∈ ps, escChar ∉ p.1 ∧ 'm' ∉ p.2) (ht : escChar ∉ tail) :
    stripAnsiAux true (mkBalanced ps tail) = (List.map Prod.fst ps).flatten ++ tail := by
  induction ps with
  | nil => simpa [mkBalanced] using stripAnsiAux_true_of_noesc tail ht
  | cons p rest ih =>
    obtain ⟨t, b⟩ := p
    have hpt : escChar ∉ t := (hp (t, b) (List.mem_cons_self _ _)).1
    have hpb : 'm' ∉ b := (hp (t, b) (List.mem_cons_self _ _)).2
    have hrest : ∀ q ∈ rest, escChar ∉ q.1 ∧ 'm' ∉ q.2 :=
      fun q hq => hp q (List.mem_cons_of_mem _ hq)
    have hmid : (escChar :: (b ++ ['m'])) ++ mkBalanced rest tail =
        escChar :: (b ++ 'm' :: mkBalanced rest tail) := by
      simp [List.append_assoc]
    rw [mkBalanced, List.append_assoc, hmid, stripAnsiAux_append,
      stripAnsiAux_true_of_noesc t hpt, keepState_true_of_noesc t hpt]
    have hesc : stripAnsiAux true (escChar :: (b ++ 'm' :: mkBalanced rest tail)) =
        stripAnsiAux false (b ++ 'm' :: mkBalanced rest tail) := by
      simp [stripAnsiAux]
    rw [hesc, stripAnsiAux_append, stripAnsiAux_false_of_nom b hpb,
      keepState_false_of_nom b hpb]
    have hm : stripAnsiAux false ('m' :: mkBalanced rest tail) =
        stripAnsiAux true (mkBalanced rest tail) := by
      simp [stripAnsiAux, escChar]
    rw [hm, ih hrest]
    simp [List.append_assoc]

/-- Claim C1: the handler attached to a report stores the span ambient at
creation time, and later span retrieval, display rendering and debug
rendering, performed while any other span `B` is ambient, all observe
that stored span `A` unchanged: their results are determined by `A` (and
the error texts) alone and never mention `B`. -/
theorem span_capture_at_creation (A B : Span) (msg dbgMsg : String) (alternate : Bool) :
    Report.spanObserved (mkReport A msg dbgMsg) B = Except.ok A ∧
    Report.displayObserved (mkReport A msg dbgMsg) B alternate =
      some (Handler.display (Handler.mk A) msg alternate) ∧
    Report.debugObserved (mkReport A msg dbgMsg) B = some dbgMsg :=
  ⟨rfl, rfl, rfl⟩

/-- Claim C2: display rendering always writes the plain error text; it
appends the span trace exactly when the alternate form was requested, the
trace being one line per frame of the captured chain, innermost first,
including field-free frames; a span three frames deep yields exactly the
three corresponding lines. -/
theorem display_alternate_trace (h : Handler) (plain : String) :
    Handler.display h plain false = plain ∧
    Handler.display h plain true = plain ++ traceSpec h.span.chain ∧
    (∀ m1 m2 m3 : FrameMeta,
      Handler.display (Handler.mk (Span.mk [m1, m2, m3])) plain true =
        plain ++ (frameLine m1 ++ (frameLine m2 ++ (frameLine m3 ++ "")))) := by
  refine ⟨by simp [Handler.display, String.append_empty], ?_, ?_⟩
  · simp [Handler.display, withSpans_eq_traceSpec]
  · intro m1 m2 m3
    simp [Handler.display, withSpans_eq_traceSpec, traceSpec]

/-- Claim C3: emitting an error report returns `none` and appends exactly
one error-level event whose message is the report's plain display text,
attributed to the report's captured span (not the ambient span at the
call site), with the previous ambient span restored afterwards. -/
theorem emit_error_event {α : Type} (r : Report) (h : Handler) (st : LogState)
    (hd : AnyHandler.downcastHandler r.handler = some h) :
    Handler.display h r.msg false = r.msg ∧
    emit (Except.error r : Except Report α) st =
      Except.ok (none, LogState.mk st.ambient
        (st.events ++ [LogEvent.mk LogLevel.error r.msg h.span])) := by
  have hdisp : Handler.display h r.msg false = r.msg := by
    simp [Handler.display, String.append_empty]
  refine ⟨hdisp, ?_⟩
  simp [emit, hd, Span.inScope, traceErrorEvent, hdisp]

/-- Witness for C3 at a concrete report, two frames of ambient mismatch:
the event carries the captured span, not the ambient one. -/
theorem emit_error_event_witness :
    Handler.display (Handler.mk (Span.mk [FrameMeta.mk "t" "n" ""])) "boom" false = "boom" ∧
    emit (Except.error (mkReport (Span.mk [FrameMeta.mk "t" "n" ""]) "boom" "dbg") :
        Except Report Nat) (LogState.mk (Span.mk []) []) =
      Except.ok (none, LogState.mk (Span.mk [])
        [LogEvent.mk LogLevel.error "boom" (Span.mk [FrameMeta.mk "t" "n" ""])]) :=
  emit_error_event (mkReport (Span.mk [FrameMeta.mk "t" "n" ""]) "boom" "dbg")
    (Handler.mk (Span.mk [FrameMeta.mk "t" "n" ""]))
    (LogState.mk (Span.mk []) []) rfl

/-- Claim C4: on text whose every escape introducer is later terminated
by an 'm', scrubbing removes exactly the segments from each introducer
through its next 'm' and keeps every other character verbatim in order. -/
theorem strip_ansi_balanced (ps : List (List Char × List Char)) (tail : List Char)
    (hp : ∀ p ∈ ps, escChar ∉ p.1 ∧ 'm' ∉ p.2) (ht : escChar ∉ tail) :
    strip_ansi (String.mk (mkBalanced ps tail)) =
      String.mk ((List.map Prod.fst ps).flatten ++ tail) := by
  unfold strip_ansi
  rw [show (String.mk (mkBalanced ps tail)).data = mkBalanced ps tail from rfl]
  rw [stripAnsiAux_mkBalanced ps tail hp ht]

/-- Witness for C4 at the claim's example: the input is the balanced text
ESC `[31` m `err` ESC `[0` m and scrubbing yields `err`. -/
theorem strip_ansi_balanced_witness :
    strip_ansi "\x1B[31merr\x1B[0m" = "err" :=
  strip_ansi_balanced [([], ['[', '3', '1']), (['e', 'r', 'r'], ['[', '0'])] []
    (by decide) (by decide)

/-- Claim C5: an escape introducer with no 'm' anywhere after it makes
scrubbing drop it and the whole remainder of the text, so only the text
before it (itself scrubbed) survives. -/
theorem strip_ansi_unterminated (p rest : List Char) (h : 'm' ∉ rest) :
    strip_ansi (String.mk (p ++ escChar :: rest)) = strip_ansi (String.mk p) := by
  unfold strip_ansi
  rw [show (String.mk (p ++ escChar :: rest)).data = p ++ escChar :: rest from rfl,
    show (String.mk p).data = p from rfl]
  rw [stripAnsiAux_append]
  have h2 : stripAnsiAux (keepState true p) (escChar :: rest) = [] := by
    simp only [stripAnsiAux, if_pos rfl]
    exact stripAnsiAux_false_of_nom rest h
  rw [h2, List.append_nil]

/-- Witness for C5 at the claim's example: scrubbing drops the
unterminated tail of `ok` ESC `cut`, leaving `ok`. -/
theorem strip_ansi_unterminated_witness :
    strip_ansi "ok\x1Bcut" = "ok" :=
  strip_ansi_unterminated ['o', 'k'] ['c', 'u', 't'] (by decide)

/-- Claim C6: scrubbing is idempotent, because its output never contains
the escape introducer and escape-free text passes through unchanged. -/
theorem strip_ansi_idempotent (s : String) :
    strip_ansi (strip_ansi s) = strip_ansi s := by
  unfold strip_ansi
  rw [show (String.mk (stripAnsiAux true s.data)).data = stripAnsiAux true s.data from rfl]
  rw [stripAnsiAux_true_of_noesc _ (escChar_notin_stripAnsiAux true s.data)]

/-- Claim C7: on a report whose attached handler is not this crate's
`Handler`, span retrieval panics with the `expect` message naming the
expected handler, rather than returning a typed error. -/
theorem span_missing_handler_panics (r : Report)
    (h : AnyHandler.downcastHandler r.handler = none) :
    Report.spanResult r = Except.error "eyre-span handler" := by
  simp [Report.spanResult, h]

/-- Witness for C7 at a report carrying a foreign (default eyre) handler. -/
theorem span_missing_handler_panics_witness :
    Report.spanResult (Report.mk "boom" "dbg" (AnyHandler.foreign "eyre-default")) =
      Except.error "eyre-span handler" :=
  span_missing_handler_panics
    (Report.mk "boom" "dbg" (AnyHandler.foreign "eyre-default")) rfl

/-- Claim C8: emitting a success returns the payload unchanged, emits no
event and leaves the log state untouched. -/
theorem emit_ok_passthrough {α : Type} (v : α) (st : LogState) :
    emit (Except.ok v : Except Report α) st = Except.ok (some v, st) :=
  rfl

/-- Claim C9: the method form of emit and the free function agree on
every result and every log state, the method body being a direct call. -/
theorem emit_method_agrees {α : Type} (e : Except Report α) (st : LogState) :
    emitMethod e st = emit e st :=
  rfl

/-- Claim C10: scrubbing only deletes characters, never inserts or
reorders them, so its output is a sublist of its input; and no escape
introducer survives into the output. -/
theorem strip_ansi_sublist_no_esc (s : String) :
    List.Sublist (strip_ansi s).data s.data ∧ escChar ∉ (strip_ansi s).data :=
  ⟨stripAnsiAux_sublist true s.data, escChar_notin_stripAnsiAux true s.data⟩
